import Mathlib

/-!
Verification of the parallel execution plan
(`onnxruntime/core/framework/parallel_execution_plan.cc`).

The planner (`ParallelExecutionPlanImpl`'s constructor) receives a graph
view and a logic-stream count `num_logic_streams` (written `K` below) and
builds, in five passes:
  1. a round-robin partition of the topologically ordered nodes into `K`
     logic streams (`nodes_in_stream`, `node_stream_map`);
  2. a notification id for every node with a consumer outside its own
     stream (`node_to_notification`);
  3. the per-logic-stream device streams (one per distinct provider
     instance, in first-occurrence order) and the node-to-device-stream
     map (`node_to_stream_map_`);
  4. the notification-owners vector (`notification_owners_`);
  5. the per-logic-stream command lists (wait / compute / notify).

The shallow embedding below reproduces those passes over an abstract
graph view.  Node indices are `Nat`; provider instances are `Nat`
(standing for the `IExecutionProvider*` obtained from
`session_state.GetExecutionProviders().Get(node->GetExecutionProviderType())`).
-/

namespace OnnxRt

/-- The graph view consumed by the planner: the topological order
(`GetNodesInTopologicalOrder`), per-node consumer and producer iterators
(`OutputNodesBegin/End`, `InputNodesBegin/End`) and the provider instance
each node resolves to. -/
structure Graph where
  topoOrder : List Nat
  consumers : Nat → List Nat
  producers : Nat → List Nat
  ep : Nat → Nat

/-- Well-formedness of the graph view, as guaranteed by the graph
infrastructure: the topological order lists each node once, consumer and
producer iterators stay inside the graph and are mutually inverse, and
producers appear before their consumers in the topological order. -/
def WF (g : Graph) : Prop :=
  g.topoOrder.Nodup
  ∧ (∀ u ∈ g.topoOrder, ∀ v ∈ g.consumers u, v ∈ g.topoOrder)
  ∧ (∀ v ∈ g.topoOrder, ∀ u ∈ g.producers v, u ∈ g.topoOrder)
  ∧ (∀ u ∈ g.topoOrder, ∀ v ∈ g.topoOrder, (v ∈ g.consumers u ↔ u ∈ g.producers v))
  ∧ (∀ v ∈ g.topoOrder, ∀ u ∈ g.producers v,
      g.topoOrder.indexOf u < g.topoOrder.indexOf v)

instance (g : Graph) : Decidable (WF g) := by
  unfold WF
  exact inferInstance

/-- Pairs each list element with its position, starting from `j`.  Used to
model loop counters (`stream_iter` is the position mod `K`; notification
ids are positions in the visit order). -/
def withPositions : Nat → List Nat → List (Nat × Nat)
  | _, [] => []
  | j, n :: rest => (n, j) :: withPositions (j + 1) rest

/-- Pass 1 (partition): each node of the topological order paired with the
value of `stream_iter` at the moment it is pushed.  `stream_iter` starts
at `0` and is advanced by `stream_iter = (stream_iter + 1) % K` after
every node, so the node at position `j` is pushed to stream `j % K`. -/
def streamAssignment (g : Graph) (K : Nat) : List (Nat × Nat) :=
  (withPositions 0 g.topoOrder).map (fun p => (p.1, p.2 % K))

/-- The `nodes_in_stream[i]` list built by pass 1: the nodes pushed to
logic stream `i`, in topological order. -/
def nodesInStream (g : Graph) (K i : Nat) : List Nat :=
  ((streamAssignment g K).filter (fun p => p.2 == i)).map Prod.fst

/-- The `node_stream_map` array built by pass 1 (logic-stream index of a
node); `none` for node indices never visited by the partition loop. -/
def nodeStream (g : Graph) (K n : Nat) : Option Nat :=
  ((streamAssignment g K).find? (fun p => p.1 == n)).map Prod.snd

/-- Pass 2 inner test: node `u` of stream `i` has a consumer that was not
partitioned into `nodes_in_stream[i]` (the `std::find == end()` check on
`it->Index()` over `OutputNodesBegin()..OutputNodesEnd()`). -/
def hasCrossConsumer (g : Graph) (K i u : Nat) : Bool :=
  (g.consumers u).any (fun v => !((nodesInStream g K i).contains v))

/-- Pass 2 visit order: scanning stream lists `0..K-1` in order and each
stream's nodes in order, the nodes that receive a notification
(`node_to_notification[node_index] = num_notifications++`).  The id of a
node is its position in this list. -/
def notifyingNodes (g : Graph) (K : Nat) : List Nat :=
  (List.range K).flatMap (fun i => (nodesInStream g K i).filter (hasCrossConsumer g K i))

/-- The `node_to_notification` map: the notification id allocated to a
node, if any. -/
def node_to_notification (g : Graph) (K u : Nat) : Option Nat :=
  ((withPositions 0 (notifyingNodes g K)).find? (fun p => p.1 == u)).map Prod.snd

/-- `num_notifications` at the end of pass 2. -/
def num_notifications (g : Graph) (K : Nat) : Nat :=
  (notifyingNodes g K).length

/-- A device stream (`struct Stream`): the asynchronous queue created by
`create_stream_fn()` for a provider.  Identified by the logic stream that
owns it and the provider instance it was created for — pass 3 creates at
most one `Stream` per provider instance per logic stream. -/
structure Stream where
  logic : Nat
  provider : Nat

deriving DecidableEq

/-- Pass 3 `providers` scan for one logic stream: the distinct provider
instances of the stream's nodes, in first-occurrence order (the
`std::set` is only a membership test; the order of creation is the node
order). -/
def deviceStreamProviders (g : Graph) (K i : Nat) : List Nat :=
  (nodesInStream g K i).foldl (fun acc n => if g.ep n ∈ acc then acc else acc ++ [g.ep n]) []

/-- `logic_streams_[i]->device_streams_` after pass 3: one device stream
per distinct provider instance, in creation order. -/
def device_streams (g : Graph) (K i : Nat) : List Stream :=
  (deviceStreamProviders g K i).map (fun p => { logic := i, provider := p })

/-- The `node_to_stream_map_` lookup: the device stream inside the node's
logic stream whose provider is the node's provider instance (the
`std::find_if` over `device_streams_`); `none` when the node was never
planned (`GetComputeStreamForNode`'s `nullptr` case). -/
def node_to_stream_map (g : Graph) (K n : Nat) : Option Stream :=
  (nodeStream g K n).bind
    (fun i => (device_streams g K i).find? (fun s => s.provider == g.ep n))

/-- Pass 4 (`notification_owners_`): entry `id` is the device stream of the
node that produced notification `id`.  The source loops over the
topological order writing `notification_owners_[node_to_notification[n]]`;
each id is written exactly once, by the unique node whose id it is, so the
vector equals the notification order mapped through the node-to-stream
lookup (the `ORT_ENFORCE(stream_it != streams.end())` always passes for a
planned node). -/
def notification_owners (g : Graph) (K : Nat) : List (Option Stream) :=
  (notifyingNodes g K).map (node_to_stream_map g K)

/-- A command pushed onto `logic_streams_[i]->commands_`.  Each closure
captures its bindings by value: a wait captures the consumer's device
stream (`cur_stream`, looked up in `node_to_stream_map_`) and the
notification index; a compute captures the node index; a notify captures
the producer's device stream (`stream_it->get()`) and the notification
index.  The registry-provided function handles (`wait_handle`,
`notify_handle`) are determined by these captures and the external
registry, so they are not repeated here. -/
inductive Command where
  | wait (cur : Option Stream) (notificationIndex : Nat)
  | compute (node : Nat)
  | notify (cur : Option Stream) (notificationIndex : Nat)

deriving DecidableEq

/-- Pass 5, body of the per-node loop for node `n` of logic stream `i`:
one wait per producer outside `nodes_in_stream[i]` (in `InputNodesBegin`
order, `ORT_ENFORCE` guaranteeing the producer has a notification), then
the kernel-launch command, then a notify if `n` produced a notification. -/
def commandsForNode (g : Graph) (K i n : Nat) : List Command :=
  ((g.producers n).filterMap (fun p =>
    if (nodesInStream g K i).contains p then none
    else (node_to_notification g K p).map (Command.wait (node_to_stream_map g K n))))
  ++ [Command.compute n]
  ++ (match node_to_notification g K n with
      | some id =>
          [Command.notify ((device_streams g K i).find? (fun s => s.provider == g.ep n)) id]
      | none => [])

/-- `logic_streams_[i]->commands_` after pass 5. -/
def commands (g : Graph) (K i : Nat) : List Command :=
  (nodesInStream g K i).flatMap (commandsForNode g K i)

/-- `GetComputeStreamForNode`: lookup in `node_to_stream_map_`, `nullptr`
(`none`) when the node index is absent. -/
def GetComputeStreamForNode (g : Graph) (K n : Nat) : Option Stream :=
  node_to_stream_map g K n

/-- The notification index a command accesses (`ctx.notifications[...]`),
if any. -/
def notificationIndexOf : Command → Option Nat
  | Command.wait _ id => some id
  | Command.notify _ id => some id
  | Command.compute _ => none

/-- A per-call notification (`struct Notification`): handle created via
`create_notification_fn(owner->handle)` plus the provider back-reference,
both determined by the owner stream. -/
structure Notification where
  owner : Option Stream

deriving DecidableEq

/-- The `notifications` array allocated by the `ExecutionContext`
constructor: `new Notification[notification_owners.size()]`, entry `i`
initialized from `notification_owners[i]`. -/
def contextNotifications (g : Graph) (K : Nat) : List Notification :=
  (notification_owners g K).map Notification.mk

/-- Result of running one command: the kernel-launch closure runs
`ORT_ENFORCE(p_kernel->Compute(&kernel_ctx).IsOK(), ...)`, which aborts
(is fatal) exactly when the kernel status is not OK.  `kernelOk` is the
external kernel collaborator: whether `Compute` returns an OK status for
a node. -/
inductive StepResult where
  | ok
  | fatal

deriving DecidableEq

def runCommand (kernelOk : Nat → Bool) : Command → StepResult
  | Command.compute n => if kernelOk n then StepResult.ok else StepResult.fatal
  | Command.wait _ _ => StepResult.ok
  | Command.notify _ _ => StepResult.ok

/-- FIFO execution of a command list (`LogicStream::Run`): commands run in
order; a fatal enforcement check aborts the run. -/
def runCommands (kernelOk : Nat → Bool) : List Command → StepResult
  | [] => StepResult.ok
  | c :: rest =>
    match runCommand kernelOk c with
    | StepResult.ok => runCommands kernelOk rest
    | StepResult.fatal => StepResult.fatal

/-- The sequence of `release_stream_fn(device_stream->handle)` calls made
by `~LogicStream()`: the destructor iterates `device_streams_` from
`begin()` to `end()`, appending one release call per device stream. -/
def releaseStreamTrace (ds : List Stream) : List Stream :=
  ds.foldl (fun acc s => acc ++ [s]) []

/-- Concrete graph for witnesses: the linear chain `0 → 1 → 2 → 3` on a
single provider (scenario A of the spec). -/
def gA : Graph where
  topoOrder := [0, 1, 2, 3]
  consumers := fun n => match n with | 0 => [1] | 1 => [2] | 2 => [3] | _ => []
  producers := fun n => match n with | 1 => [0] | 2 => [1] | 3 => [2] | _ => []
  ep := fun _ => 0

/-- Concrete graph for witnesses: the chain `0 → 1` with two distinct
provider instances (scenario C shape), so one logic stream owns two
device streams. -/
def gB : Graph where
  topoOrder := [0, 1]
  consumers := fun n => match n with | 0 => [1] | _ => []
  producers := fun n => match n with | 1 => [0] | _ => []
  ep := fun n => n

/-- The claim's (spec-side) characterization of a notification source: a
node with at least one out-edge whose head lies in a different logic
stream.  Stated over the partition maps, independently of the pass-2
scan; defined only to be compared against the source's
`notifyingNodes`. -/
def specCrossStreamSource (g : Graph) (K u : Nat) : Bool :=
  (g.consumers u).any (fun v => nodeStream g K v != nodeStream g K u)

/-- Does a command notify notification `id`? -/
def isNotifyFor (id : Nat) : Command → Bool
  | Command.notify _ id' => id' == id
  | _ => false

lemma withPositions_map_fst (l : List Nat) : ∀ j, (withPositions j l).map Prod.fst = l := by
  induction l with
  | nil => intro j; rfl
  | cons a rest ih =>
    intro j
    simp [withPositions, ih]

lemma mem_withPositions (l : List Nat) :
    ∀ j0 n j, (n, j) ∈ withPositions j0 l ↔ ∃ d, j = j0 + d ∧ l[d]? = some n := by
  induction l with
  | nil =>
    intro j0 n j
    simp [withPositions]
  | cons a rest ih =>
    intro j0 n j
    constructor
    · intro h
      rcases List.mem_cons.mp h with h | h
      · refine ⟨0, ?_, ?_⟩
        · have : j = j0 := congrArg Prod.snd h
          omega
        · have : n = a := congrArg Prod.fst h
          simp [this]
      · rcases (ih (j0 + 1) n j).mp h with ⟨d, hd, hget⟩
        exact ⟨d + 1, by omega, by simpa using hget⟩
    · rintro ⟨d, hd, hget⟩
      cases d with
      | zero =>
        have : n = a := by
          have h' : a = n := by simpa using hget
          exact h'.symm
        subst this
        have : j = j0 := by omega
        subst this
        exact List.mem_cons_self _ _
      | succ d =>
        refine List.mem_cons_of_mem _ ((ih (j0 + 1) n j).mpr ⟨d, by omega, by simpa using hget⟩)

lemma mem_streamAssignment (g : Graph) (K : Nat) (n s : Nat) :
    (n, s) ∈ streamAssignment g K ↔ ∃ d, g.topoOrder[d]? = some n ∧ d % K = s := by
  unfold streamAssignment
  constructor
  · intro h
    rcases List.mem_map.mp h with ⟨⟨m, j⟩, hmem, heq⟩
    have hm : m = n := congrArg Prod.fst heq
    have hs : j % K = s := congrArg Prod.snd heq
    rcases (mem_withPositions g.topoOrder 0 m j).mp hmem with ⟨d, hd, hget⟩
    refine ⟨d, ?_, ?_⟩
    · rw [← hm]; exact hget
    · have : j = d := by omega
      rw [← hs, this]
  · rintro ⟨d, hget, hmod⟩
    refine List.mem_map.mpr ⟨(n, d), ?_, by simp [hmod]⟩
    exact (mem_withPositions g.topoOrder 0 n d).mpr ⟨d, by omega, hget⟩

lemma streamAssignment_map_fst (g : Graph) (K : Nat) :
    (streamAssignment g K).map Prod.fst = g.topoOrder := by
  unfold streamAssignment
  rw [List.map_map]
  exact withPositions_map_fst g.topoOrder 0

lemma mem_nodesInStream (g : Graph) (K i n : Nat) :
    n ∈ nodesInStream g K i ↔ ∃ d, g.topoOrder[d]? = some n ∧ d % K = i := by
  unfold nodesInStream
  constructor
  · intro h
    rcases List.mem_map.mp h with ⟨⟨m, s⟩, hmem, heq⟩
    have hm : m = n := heq
    rcases List.mem_filter.mp hmem with ⟨hsa, hs⟩
    have hs' : s = i := by simpa using hs
    rw [← hm, ← hs']
    exact (mem_streamAssignment g K m s).mp hsa
  · intro h
    rcases (mem_streamAssignment g K n i).mpr h with hsa
    exact List.mem_map.mpr ⟨(n, i), List.mem_filter.mpr ⟨hsa, by simp⟩, rfl⟩

lemma mem_topo_of_mem_nodesInStream (g : Graph) (K i n : Nat)
    (h : n ∈ nodesInStream g K i) : n ∈ g.topoOrder := by
  rcases (mem_nodesInStream g K i n).mp h with ⟨d, hget, _⟩
  exact List.getElem?_mem hget

lemma nodesInStream_nodup (g : Graph) (K i : Nat) (hnd : g.topoOrder.Nodup) :
    (nodesInStream g K i).Nodup := by
  have hsub : (nodesInStream g K i).Sublist g.topoOrder := by
    have h1 : (nodesInStream g K i).Sublist ((streamAssignment g K).map Prod.fst) :=
      List.Sublist.map Prod.fst (List.filter_sublist _)
    rw [streamAssignment_map_fst] at h1
    exact h1
  exact List.Nodup.sublist hsub hnd

lemma nodeStream_eq_none_iff (g : Graph) (K n : Nat) :
    nodeStream g K n = none ↔ n ∉ g.topoOrder := by
  unfold nodeStream
  rw [Option.map_eq_none', List.find?_eq_none]
  constructor
  · intro h hn
    rcases List.getElem?_of_mem hn with ⟨d, hd⟩
    have hmem : (n, d % K) ∈ streamAssignment g K :=
      (mem_streamAssignment g K n (d % K)).mpr ⟨d, hd, rfl⟩
    exact h _ hmem (by simp)
  · intro h p hp hpn
    have : p.1 = n := by simpa using hpn
    have : p.1 ∈ (streamAssignment g K).map Prod.fst := List.mem_map_of_mem _ hp
    rw [streamAssignment_map_fst] at this
    apply h
    simpa [‹p.1 = n›] using this

lemma nodeStream_eq_some_of_getElem (g : Graph) (K : Nat) (hnd : g.topoOrder.Nodup)
    (n d : Nat) (hd : g.topoOrder[d]? = some n) : nodeStream g K n = some (d % K) := by
  unfold nodeStream
  have hmem : (n, d % K) ∈ streamAssignment g K :=
    (mem_streamAssignment g K n (d % K)).mpr ⟨d, hd, rfl⟩
  have hsome : ((streamAssignment g K).find? (fun p => p.1 == n)).isSome := by
    rw [List.find?_isSome]
    exact ⟨(n, d % K), hmem, by simp⟩
  rcases Option.isSome_iff_exists.mp hsome with ⟨p, hp⟩
  have hpn : p.1 = n := by simpa using List.find?_some hp
  have hpmem : p ∈ streamAssignment g K := List.mem_of_find?_eq_some hp
  have hp2 : (n, p.2) ∈ streamAssignment g K := by
    rw [← hpn]
    exact hpmem
  rcases (mem_streamAssignment g K n p.2).mp hp2 with ⟨d', hd', hmod⟩
  have hdd : d' = d := by
    have hlt : d' < g.topoOrder.length := by
      rcases List.getElem?_eq_some_iff.mp hd' with ⟨h, _⟩
      exact h
    exact List.getElem?_inj hlt hnd (by rw [hd', hd])
  rw [hp]
  have : p.2 = d % K := by rw [← hmod, hdd]
  simp [this]

lemma mem_nodesInStream_iff_nodeStream (g : Graph) (K : Nat) (hnd : g.topoOrder.Nodup)
    (i n : Nat) : n ∈ nodesInStream g K i ↔ nodeStream g K n = some i := by
  constructor
  · intro h
    rcases (mem_nodesInStream g K i n).mp h with ⟨d, hd, hmod⟩
    rw [nodeStream_eq_some_of_getElem g K hnd n d hd, hmod]
  · intro h
    have hn : n ∈ g.topoOrder := by
      by_contra hn
      rw [(nodeStream_eq_none_iff g K n).mpr hn] at h
      exact Option.noConfusion h
    rcases List.getElem?_of_mem hn with ⟨d, hd⟩
    have := nodeStream_eq_some_of_getElem g K hnd n d hd
    rw [this] at h
    have hmod : d % K = i := by
      have := Option.some.inj h
      exact this
    exact (mem_nodesInStream g K i n).mpr ⟨d, hd, hmod⟩

lemma nodesInStream_disjoint (g : Graph) (K : Nat) (hnd : g.topoOrder.Nodup)
    (i j n : Nat) (hi : n ∈ nodesInStream g K i) (hj : n ∈ nodesInStream g K j) : i = j := by
  have h1 := (mem_nodesInStream_iff_nodeStream g K hnd i n).mp hi
  have h2 := (mem_nodesInStream_iff_nodeStream g K hnd j n).mp hj
  rw [h1] at h2
  exact Option.some.inj h2

lemma posOf_eq_none_iff (l : List Nat) (u : Nat) :
    ((withPositions 0 l).find? (fun p => p.1 == u)).map Prod.snd = none ↔ u ∉ l := by
  rw [Option.map_eq_none', List.find?_eq_none]
  constructor
  · intro h hu
    rcases List.getElem?_of_mem hu with ⟨d, hd⟩
    exact h (u, d) ((mem_withPositions l 0 u d).mpr ⟨d, by omega, hd⟩) (by simp)
  · intro h p hp hpu
    have hpu' : p.1 = u := by simpa using hpu
    have hmem : (p.1, p.2) ∈ withPositions 0 l := hp
    rcases (mem_withPositions l 0 p.1 p.2).mp hmem with ⟨d, _, hd⟩
    rw [hpu'] at hd
    exact h (List.getElem?_mem hd)

lemma posOf_eq_some_iff (l : List Nat) (hnd : l.Nodup) (u d : Nat) :
    ((withPositions 0 l).find? (fun p => p.1 == u)).map Prod.snd = some d ↔ l[d]? = some u := by
  constructor
  · intro h
    rcases Option.map_eq_some'.mp h with ⟨p, hp, hps⟩
    have hpu : p.1 = u := by simpa using List.find?_some hp
    have hmem : (p.1, p.2) ∈ withPositions 0 l := List.mem_of_find?_eq_some hp
    rcases (mem_withPositions l 0 p.1 p.2).mp hmem with ⟨d', hd', hget⟩
    have : d' = d := by omega
    rw [← this, hget, hpu]
  · intro hd
    have hmem : (u, d) ∈ withPositions 0 l := (mem_withPositions l 0 u d).mpr ⟨d, by omega, hd⟩
    have hsome : ((withPositions 0 l).find? (fun p => p.1 == u)).isSome := by
      rw [List.find?_isSome]
      exact ⟨(u, d), hmem, by simp⟩
    rcases Option.isSome_iff_exists.mp hsome with ⟨p, hp⟩
    have hpu : p.1 = u := by simpa using List.find?_some hp
    have hpmem : (p.1, p.2) ∈ withPositions 0 l := List.mem_of_find?_eq_some hp
    rcases (mem_withPositions l 0 p.1 p.2).mp hpmem with ⟨d', hd', hget⟩
    have hdd : d' = d := by
      have hlt : d' < l.length := by
        rcases List.getElem?_eq_some_iff.mp hget with ⟨hh, _⟩
        exact hh
      apply List.getElem?_inj hlt hnd
      rw [hget, hd, hpu]
    rw [hp]
    simp only [Option.map_some']
    congr 1
    omega

lemma notifyingNodes_nodup (g : Graph) (K : Nat) (hnd : g.topoOrder.Nodup) :
    (notifyingNodes g K).Nodup := by
  unfold notifyingNodes
  rw [List.nodup_flatMap]
  constructor
  · intro i _
    exact List.Nodup.sublist (List.filter_sublist _) (nodesInStream_nodup g K i hnd)
  · refine List.Pairwise.imp ?_ (List.nodup_range K)
    intro i j hij n hni hnj
    have h1 : n ∈ nodesInStream g K i := (List.mem_filter.mp hni).1
    have h2 : n ∈ nodesInStream g K j := (List.mem_filter.mp hnj).1
    exact hij (nodesInStream_disjoint g K hnd i j n h1 h2)

lemma mem_notifyingNodes (g : Graph) (K : Nat) (u : Nat) :
    u ∈ notifyingNodes g K ↔
      ∃ i, i < K ∧ u ∈ nodesInStream g K i ∧ hasCrossConsumer g K i u = true := by
  unfold notifyingNodes
  rw [List.mem_flatMap]
  constructor
  · rintro ⟨i, hi, hu⟩
    rcases List.mem_filter.mp hu with ⟨h1, h2⟩
    exact ⟨i, List.mem_range.mp hi, h1, h2⟩
  · rintro ⟨i, hi, h1, h2⟩
    exact ⟨i, List.mem_range.mpr hi, List.mem_filter.mpr ⟨h1, h2⟩⟩

lemma node_to_notification_lt (g : Graph) (K u id : Nat)
    (h : node_to_notification g K u = some id) : id < num_notifications g K := by
  unfold node_to_notification at h
  rcases Option.map_eq_some'.mp h with ⟨p, hp, hps⟩
  have hmem : (p.1, p.2) ∈ withPositions 0 (notifyingNodes g K) := List.mem_of_find?_eq_some hp
  rcases (mem_withPositions _ 0 p.1 p.2).mp hmem with ⟨d, hd, hget⟩
  rcases List.getElem?_eq_some_iff.mp hget with ⟨hlt, _⟩
  unfold num_notifications
  omega

lemma node_to_notification_eq_some_iff (g : Graph) (K : Nat) (hnd : g.topoOrder.Nodup)
    (u id : Nat) :
    node_to_notification g K u = some id ↔ (notifyingNodes g K)[id]? = some u :=
  posOf_eq_some_iff (notifyingNodes g K) (notifyingNodes_nodup g K hnd) u id

lemma node_to_notification_eq_none_iff (g : Graph) (K : Nat) (u : Nat) :
    node_to_notification g K u = none ↔ u ∉ notifyingNodes g K :=
  posOf_eq_none_iff (notifyingNodes g K) u

lemma foldl_dedup_mem (f : Nat → Nat) (l : List Nat) :
    ∀ acc x, (x ∈ l.foldl (fun acc n => if f n ∈ acc then acc else acc ++ [f n]) acc ↔
      x ∈ acc ∨ ∃ n ∈ l, f n = x) := by
  induction l with
  | nil => intro acc x; simp
  | cons a rest ih =>
    intro acc x
    simp only [List.foldl_cons]
    by_cases h : f a ∈ acc
    · rw [if_pos h, ih]
      constructor
      · rintro (hx | hx)
        · exact Or.inl hx
        · exact Or.inr (by rcases hx with ⟨n, hn, hfn⟩; exact ⟨n, List.mem_cons_of_mem _ hn, hfn⟩)
      · rintro (hx | ⟨n, hn, hfn⟩)
        · exact Or.inl hx
        · rcases List.mem_cons.mp hn with rfl | hn
          · exact Or.inl (hfn ▸ h)
          · exact Or.inr ⟨n, hn, hfn⟩
    · rw [if_neg h, ih]
      constructor
      · rintro (hx | hx)
        · rcases List.mem_append.mp hx with hx | hx
          · exact Or.inl hx
          · have : x = f a := by simpa using hx
            exact Or.inr ⟨a, List.mem_cons_self _ _, this.symm⟩
        · exact Or.inr (by rcases hx with ⟨n, hn, hfn⟩; exact ⟨n, List.mem_cons_of_mem _ hn, hfn⟩)
      · rintro (hx | ⟨n, hn, hfn⟩)
        · exact Or.inl (List.mem_append.mpr (Or.inl hx))
        · rcases List.mem_cons.mp hn with rfl | hn
          · exact Or.inl (List.mem_append.mpr (Or.inr (by simp [hfn])))
          · exact Or.inr ⟨n, hn, hfn⟩

lemma foldl_dedup_nodup (f : Nat → Nat) (l : List Nat) :
    ∀ acc, acc.Nodup → (l.foldl (fun acc n => if f n ∈ acc then acc else acc ++ [f n]) acc).Nodup := by
  induction l with
  | nil => intro acc h; simpa
  | cons a rest ih =>
    intro acc h
    simp only [List.foldl_cons]
    by_cases hfa : f a ∈ acc
    · rw [if_pos hfa]; exact ih acc h
    · rw [if_neg hfa]
      apply ih
      rw [List.nodup_append]
      refine ⟨h, List.nodup_singleton _, ?_⟩
      intro x hx hx'
      have hxa : x = f a := by simpa using hx'
      exact hfa (hxa ▸ hx)

lemma mem_deviceStreamProviders (g : Graph) (K i p : Nat) :
    p ∈ deviceStreamProviders g K i ↔ ∃ n ∈ nodesInStream g K i, g.ep n = p := by
  unfold deviceStreamProviders
  rw [foldl_dedup_mem]
  simp

lemma deviceStreamProviders_nodup (g : Graph) (K i : Nat) :
    (deviceStreamProviders g K i).Nodup :=
  foldl_dedup_nodup g.ep (nodesInStream g K i) [] List.nodup_nil

lemma mem_device_streams (g : Graph) (K i : Nat) (s : Stream) :
    s ∈ device_streams g K i ↔ s.logic = i ∧ ∃ n ∈ nodesInStream g K i, g.ep n = s.provider := by
  unfold device_streams
  rw [List.mem_map]
  constructor
  · rintro ⟨p, hp, rfl⟩
    exact ⟨rfl, (mem_deviceStreamProviders g K i p).mp hp⟩
  · rintro ⟨hl, hp⟩
    refine ⟨s.provider, (mem_deviceStreamProviders g K i s.provider).mpr hp, ?_⟩
    cases s
    simp_all

lemma device_streams_nodup (g : Graph) (K i : Nat) : (device_streams g K i).Nodup := by
  unfold device_streams
  refine List.Nodup.map ?_ (deviceStreamProviders_nodup g K i)
  intro a b h
  exact congrArg Stream.provider h

lemma node_to_stream_map_spec (g : Graph) (K : Nat) (n i : Nat)
    (h : nodeStream g K n = some i) (hmem : n ∈ nodesInStream g K i) :
    node_to_stream_map g K n = some { logic := i, provider := g.ep n } := by
  unfold node_to_stream_map
  rw [h]
  simp only [Option.some_bind]
  have htarget : ({ logic := i, provider := g.ep n } : Stream) ∈ device_streams g K i :=
    (mem_device_streams g K i _).mpr ⟨rfl, n, hmem, rfl⟩
  have hsome : ((device_streams g K i).find? (fun s => s.provider == g.ep n)).isSome := by
    rw [List.find?_isSome]
    exact ⟨_, htarget, by simp⟩
  rcases Option.isSome_iff_exists.mp hsome with ⟨s, hs⟩
  have hsp : s.provider = g.ep n := by simpa using List.find?_some hs
  have hsl : s.logic = i := ((mem_device_streams g K i s).mp (List.mem_of_find?_eq_some hs)).1
  rw [hs]
  congr 1
  cases s
  simp_all

lemma releaseStreamTrace_eq (ds : List Stream) : releaseStreamTrace ds = ds := by
  unfold releaseStreamTrace
  have h : ∀ acc : List Stream, ds.foldl (fun acc s => acc ++ [s]) acc = acc ++ ds := by
    induction ds with
    | nil => intro acc; simp
    | cons a rest ih => intro acc; simp [ih]
  simpa using h []

lemma nodeStream_lt (g : Graph) (K n i : Nat) (hK : 0 < K)
    (h : nodeStream g K n = some i) : i < K := by
  unfold nodeStream at h
  rcases Option.map_eq_some'.mp h with ⟨p, hp, hps⟩
  have hmem : (p.1, p.2) ∈ streamAssignment g K := List.mem_of_find?_eq_some hp
  rcases (mem_streamAssignment g K p.1 p.2).mp hmem with ⟨d, _, hmod⟩
  have : p.2 < K := by
    rw [← hmod]
    exact Nat.mod_lt d hK
  omega

/-- A producer outside the consumer's stream list always carries a
notification: the `ORT_ENFORCE(notfication_it != node_to_notification.end())`
in pass 5 never fires on a well-formed graph. -/
lemma cross_producer_notifying (g : Graph) (K : Nat) (hwf : WF g) (hK : 0 < K)
    (i n p : Nat) (hn : n ∈ nodesInStream g K i) (hp : p ∈ g.producers n)
    (hout : p ∉ nodesInStream g K i) : p ∈ notifyingNodes g K := by
  obtain ⟨hnd, hcons, hprod, hdual, _⟩ := hwf
  have hntopo : n ∈ g.topoOrder := mem_topo_of_mem_nodesInStream g K i n hn
  have hptopo : p ∈ g.topoOrder := hprod n hntopo p hp
  rcases List.getElem?_of_mem hptopo with ⟨d, hd⟩
  have hpstream : nodeStream g K p = some (d % K) :=
    nodeStream_eq_some_of_getElem g K hnd p d hd
  have hpmem : p ∈ nodesInStream g K (d % K) :=
    (mem_nodesInStream_iff_nodeStream g K hnd _ p).mpr hpstream
  have hnv : n ∈ g.consumers p := (hdual p hptopo n hntopo).mpr hp
  have hnout : n ∉ nodesInStream g K (d % K) := by
    intro hmem
    have : d % K = i := nodesInStream_disjoint g K hnd _ i n hmem hn
    rw [this] at hpmem
    exact hout hpmem
  refine (mem_notifyingNodes g K p).mpr ⟨d % K, Nat.mod_lt d hK, hpmem, ?_⟩
  unfold hasCrossConsumer
  rw [List.any_eq_true]
  refine ⟨n, hnv, ?_⟩
  simp only [Bool.not_eq_true']
  rw [← Bool.not_eq_true]
  intro hcontains
  exact hnout (by simpa using hcontains)

lemma pair_sublist_getElem {α : Type} (a b : α) :
    ∀ l : List α, [a, b].Sublist l →
      ∃ i j : Nat, i < j ∧ l[i]? = some a ∧ l[j]? = some b := by
  intro l
  induction l with
  | nil => intro h; exact absurd (h.length_le) (by simp)
  | cons c rest ih =>
    intro h
    cases h with
    | cons _ h' =>
      rcases ih h' with ⟨i, j, hij, ha, hb⟩
      exact ⟨i + 1, j + 1, by omega, by simpa using ha, by simpa using hb⟩
    | cons₂ _ h' =>
      have hb : b ∈ rest := h'.mem (by simp)
      rcases List.getElem?_of_mem hb with ⟨j, hj⟩
      exact ⟨0, j + 1, by omega, by simp, by simpa using hj⟩

lemma getElem_append_cons_pair {α : Type} (pre post : List α) (a b : α) :
    (pre ++ a :: b :: post)[pre.length]? = some a
    ∧ (pre ++ a :: b :: post)[pre.length + 1]? = some b := by
  constructor
  · rw [List.getElem?_append_right (Nat.le_refl _)]
    simp
  · rw [List.getElem?_append_right (by omega)]
    have : pre.length + 1 - pre.length = 1 := by omega
    rw [this]
    simp

lemma flatMap_singleton_map {α β : Type} (f : α → β) (h : α → List β) (l : List α)
    (hl : ∀ x ∈ l, h x = [f x]) : l.flatMap h = l.map f := by
  induction l with
  | nil => rfl
  | cons a rest ih =>
    rw [List.flatMap_cons, List.map_cons, hl a (List.mem_cons_self _ _),
      ih (fun x hx => hl x (List.mem_cons_of_mem _ hx))]
    rfl

lemma sum_indicator_zero (su : Nat) :
    ∀ l : List Nat, su ∉ l → (l.map (fun i => if i = su then 1 else 0)).sum = 0 := by
  intro l
  induction l with
  | nil => intro _; rfl
  | cons a rest ih =>
    intro h
    have ha : a ≠ su := fun hh => h (hh ▸ List.mem_cons_self _ _)
    have hr : su ∉ rest := fun hh => h (List.mem_cons_of_mem _ hh)
    simp [ha, ih hr]

lemma sum_indicator_one (su : Nat) :
    ∀ l : List Nat, l.Nodup → su ∈ l →
      (l.map (fun i => if i = su then 1 else 0)).sum = 1 := by
  have hzero := sum_indicator_zero su
  intro l
  induction l with
  | nil => intro _ h; exact absurd h (List.not_mem_nil su)
  | cons a rest ih =>
    intro hnd hmem
    rcases List.mem_cons.mp hmem with heq | hmem'
    · have hnr : su ∉ rest := by
        have h' := (List.nodup_cons.mp hnd).1
        rw [← heq] at h'
        exact h'
      simp [← heq, hzero rest hnr]
    · have ha : a ≠ su := by
        intro hh
        exact (List.nodup_cons.mp hnd).1 (hh ▸ hmem')
      simp only [List.map_cons, List.sum_cons, if_neg ha]
      rw [ih (List.nodup_cons.mp hnd).2 hmem']

/-- C8: the kernel-launch command is fatal (the `ORT_ENFORCE` on
`p_kernel->Compute(&kernel_ctx).IsOK()` fires) if and only if the
kernel's compute returns a non-OK status; on an OK status the command
completes normally and the logic stream's FIFO run continues with the
remaining commands. -/
theorem C8_compute_fatal_iff_kernel_not_ok (kernelOk : Nat → Bool) (n : Nat)
    (rest : List Command) :
    (runCommand kernelOk (Command.compute n) = StepResult.fatal ↔ kernelOk n = false)
    ∧ (kernelOk n = true →
        runCommands kernelOk (Command.compute n :: rest) = runCommands kernelOk rest) := by
  constructor
  · by_cases h : kernelOk n <;> simp [runCommand, h]
  · intro h
    simp [runCommands, runCommand, h]

theorem C8_compute_fatal_iff_kernel_not_ok_witness :
    (runCommand (fun _ => true) (Command.compute 0) = StepResult.fatal
      ↔ (fun _ : Nat => true) 0 = false)
    ∧ runCommands (fun _ => true) (Command.compute 0 :: []) = runCommands (fun _ => true) [] :=
  ⟨(C8_compute_fatal_iff_kernel_not_ok (fun _ => true) 0 []).1,
    (C8_compute_fatal_iff_kernel_not_ok (fun _ => true) 0 []).2 rfl⟩

/-- C9: the execution context allocates one notification per entry of the
notification-owners vector, and every notification index captured by a
wait or notify command is strictly below that size, so every
`ctx.notifications[index]` access performed by a command stays in
bounds. -/
theorem C9_notification_indices_in_bounds (g : Graph) (K i : Nat) (c : Command)
    (id : Nat) (hc : c ∈ commands g K i) (hid : notificationIndexOf c = some id) :
    (contextNotifications g K).length = (notification_owners g K).length
    ∧ id < (notification_owners g K).length := by
  refine ⟨by simp [contextNotifications], ?_⟩
  have howners : (notification_owners g K).length = num_notifications g K := by
    simp [notification_owners, num_notifications]
  rw [howners]
  rcases List.mem_flatMap.mp hc with ⟨n, _, hcn⟩
  unfold commandsForNode at hcn
  rcases List.mem_append.mp hcn with hcw2 | hcn'
  · rcases List.mem_append.mp hcw2 with hcw | hcc
    · rcases List.mem_filterMap.mp hcw with ⟨p, _, hp⟩
      by_cases hin : (nodesInStream g K i).contains p
      · rw [if_pos hin] at hp
        exact absurd hp (by simp)
      · rw [if_neg hin] at hp
        rcases Option.map_eq_some'.mp hp with ⟨id', hid', rfl⟩
        have : id = id' := by
          unfold notificationIndexOf at hid
          exact (Option.some.inj hid).symm
        rw [this]
        exact node_to_notification_lt g K p id' hid'
    · have : c = Command.compute n := by simpa using hcc
      rw [this] at hid
      exact absurd hid (by simp [notificationIndexOf])
  · rcases hntn : node_to_notification g K n with _ | id'
    · rw [hntn] at hcn'
      exact absurd hcn' (by simp)
    · rw [hntn] at hcn'
      have : c = Command.notify
          ((device_streams g K i).find? (fun s => s.provider == g.ep n)) id' := by
        simpa using hcn'
      rw [this] at hid
      have : id = id' := by
        unfold notificationIndexOf at hid
        exact (Option.some.inj hid).symm
      rw [this]
      exact node_to_notification_lt g K n id' hntn

theorem C9_notification_indices_in_bounds_witness :
    (Command.wait (some { logic := 1, provider := 0 }) 0 ∈ commands gA 2 1)
    ∧ ((contextNotifications gA 2).length = (notification_owners gA 2).length
        ∧ 0 < (notification_owners gA 2).length) :=
  ⟨by decide,
    C9_notification_indices_in_bounds gA 2 1
      (Command.wait (some { logic := 1, provider := 0 }) 0) 0 (by decide) (by decide)⟩

/-- C6 (counterexample to the claim as stated): `~LogicStream()` iterates
`device_streams_` from `begin()` to `end()`, so on a logic stream owning
two device streams the release calls happen in insertion order, which is
not the reverse of the insertion order. -/
theorem C6_reverse_release_counterexample :
    releaseStreamTrace (device_streams gB 1 0) ≠ (device_streams gB 1 0).reverse := by
  decide

/-- C6 (amended): when a logic stream is destroyed, `release_stream` is
called exactly once per owned device stream, in the order in which the
device streams were inserted (not the reverse). -/
theorem C6_release_once_in_insertion_order (g : Graph) (K i : Nat) :
    releaseStreamTrace (device_streams g K i) = device_streams g K i
    ∧ ∀ s ∈ device_streams g K i,
        (releaseStreamTrace (device_streams g K i)).count s = 1 := by
  refine ⟨releaseStreamTrace_eq _, ?_⟩
  intro s hs
  rw [releaseStreamTrace_eq]
  exact List.count_eq_one_of_mem (device_streams_nodup g K i) hs

theorem C6_release_once_in_insertion_order_witness :
    (({ logic := 0, provider := 0 } : Stream) ∈ device_streams gB 1 0)
    ∧ (releaseStreamTrace (device_streams gB 1 0)).count { logic := 0, provider := 0 } = 1 :=
  ⟨by decide, (C6_release_once_in_insertion_order gB 1 0).2 _ (by decide)⟩

/-- C10: `GetComputeStreamForNode` returns `nullptr` exactly for node
indices that received no assignment during planning (indices absent from
the graph's topological order); for every planned node it returns the
device stream recorded in `node_to_stream_map_`, which belongs to the
node's logic stream and whose provider is the node's provider
instance. -/
theorem C10_get_compute_stream_for_node (g : Graph) (K n : Nat) (hwf : WF g)
    (_hK : 0 < K) :
    (GetComputeStreamForNode g K n = none ↔ n ∉ g.topoOrder)
    ∧ (n ∈ g.topoOrder → ∃ s : Stream,
        GetComputeStreamForNode g K n = some s
        ∧ nodeStream g K n = some s.logic
        ∧ s.provider = g.ep n
        ∧ s ∈ device_streams g K s.logic) := by
  obtain ⟨hnd, -, -, -, -⟩ := hwf
  have hin : ∀ hn : n ∈ g.topoOrder, ∃ s : Stream,
      GetComputeStreamForNode g K n = some s
      ∧ nodeStream g K n = some s.logic
      ∧ s.provider = g.ep n
      ∧ s ∈ device_streams g K s.logic := by
    intro hn
    rcases List.getElem?_of_mem hn with ⟨d, hd⟩
    have hstream : nodeStream g K n = some (d % K) :=
      nodeStream_eq_some_of_getElem g K hnd n d hd
    have hmem : n ∈ nodesInStream g K (d % K) :=
      (mem_nodesInStream_iff_nodeStream g K hnd _ n).mpr hstream
    refine ⟨{ logic := d % K, provider := g.ep n }, ?_, hstream, rfl, ?_⟩
    · exact node_to_stream_map_spec g K n (d % K) hstream hmem
    · exact (mem_device_streams g K (d % K) _).mpr ⟨rfl, n, hmem, rfl⟩
  constructor
  · constructor
    · intro hnone hn
      rcases hin hn with ⟨s, hs, -, -, -⟩
      rw [hs] at hnone
      exact Option.noConfusion hnone
    · intro hn
      unfold GetComputeStreamForNode node_to_stream_map
      rw [(nodeStream_eq_none_iff g K n).mpr hn]
      rfl
  · exact hin

theorem C10_get_compute_stream_for_node_witness :
    ((0 : Nat) ∈ gA.topoOrder)
    ∧ (∃ s : Stream, GetComputeStreamForNode gA 2 0 = some s
        ∧ nodeStream gA 2 0 = some s.logic
        ∧ s.provider = gA.ep 0
        ∧ s ∈ device_streams gA 2 s.logic) :=
  ⟨by decide,
    (C10_get_compute_stream_for_node gA 2 0 (by decide) (by decide)).2 (by decide)⟩

/-- C4: pass 1 assigns the node at position `d` of the topological order
to logic stream `d % K`; consequently every node of the graph view
belongs to exactly one logic stream and has exactly one entry (one
defined value) in the node-to-stream map. -/
theorem C4_round_robin_partition (g : Graph) (K : Nat) (hwf : WF g) (_hK : 0 < K) :
    (∀ d n : Nat, g.topoOrder[d]? = some n →
        nodeStream g K n = some (d % K) ∧ n ∈ nodesInStream g K (d % K))
    ∧ (∀ n ∈ g.topoOrder, ∃! i : Nat, n ∈ nodesInStream g K i)
    ∧ (∀ n ∈ g.topoOrder, (node_to_stream_map g K n).isSome = true) := by
  obtain ⟨hnd, -, -, -, -⟩ := hwf
  have hpos : ∀ d n : Nat, g.topoOrder[d]? = some n →
      nodeStream g K n = some (d % K) ∧ n ∈ nodesInStream g K (d % K) := by
    intro d n hd
    have hstream := nodeStream_eq_some_of_getElem g K hnd n d hd
    exact ⟨hstream, (mem_nodesInStream_iff_nodeStream g K hnd _ n).mpr hstream⟩
  refine ⟨hpos, ?_, ?_⟩
  · intro n hn
    rcases List.getElem?_of_mem hn with ⟨d, hd⟩
    refine ⟨d % K, (hpos d n hd).2, ?_⟩
    intro j hj
    exact nodesInStream_disjoint g K hnd j (d % K) n hj (hpos d n hd).2
  · intro n hn
    rcases List.getElem?_of_mem hn with ⟨d, hd⟩
    rw [node_to_stream_map_spec g K n (d % K) (hpos d n hd).1 (hpos d n hd).2]
    rfl

theorem C4_round_robin_partition_witness :
    (gA.topoOrder[3]? = some 3)
    ∧ (nodeStream gA 2 3 = some (3 % 2) ∧ 3 ∈ nodesInStream gA 2 (3 % 2))
    ∧ ((1 : Nat) ∈ gA.topoOrder)
    ∧ (∃! i : Nat, 1 ∈ nodesInStream gA 2 i)
    ∧ (node_to_stream_map gA 2 1).isSome = true :=
  ⟨by decide,
    (C4_round_robin_partition gA 2 (by decide) (by decide)).1 3 3 (by decide),
    by decide,
    (C4_round_robin_partition gA 2 (by decide) (by decide)).2.1 1 (by decide),
    (C4_round_robin_partition gA 2 (by decide) (by decide)).2.2 1 (by decide)⟩

/-- C7: with `K = 1` the planner creates zero notifications, a single
logic stream containing every node, and a command list consisting only of
compute commands in the topological order of the graph (no wait or notify
commands); that order places every producer before each of its
consumers. -/
theorem C7_single_stream_degenerates (g : Graph) (hwf : WF g) :
    notifyingNodes g 1 = []
    ∧ nodesInStream g 1 0 = g.topoOrder
    ∧ commands g 1 0 = g.topoOrder.map Command.compute
    ∧ (∀ v ∈ g.topoOrder, ∀ u ∈ g.producers v, ∃ ju jv : Nat, ju < jv
        ∧ (commands g 1 0)[ju]? = some (Command.compute u)
        ∧ (commands g 1 0)[jv]? = some (Command.compute v)) := by
  obtain ⟨hnd, hcons, hprod, -, htopo⟩ := hwf
  have hall : nodesInStream g 1 0 = g.topoOrder := by
    unfold nodesInStream
    have hfilter : (streamAssignment g 1).filter (fun p => p.2 == 0) = streamAssignment g 1 := by
      rw [List.filter_eq_self]
      intro p hp
      have hp' : (p.1, p.2) ∈ streamAssignment g 1 := hp
      rcases (mem_streamAssignment g 1 p.1 p.2).mp hp' with ⟨d, -, hmod⟩
      have hp2 : p.2 = 0 := by omega
      simp [hp2]
    rw [hfilter, streamAssignment_map_fst]
  have hnone : notifyingNodes g 1 = [] := by
    unfold notifyingNodes
    have hrange : List.range 1 = [0] := rfl
    rw [hrange]
    simp only [List.flatMap_cons, List.flatMap_nil, List.append_nil]
    rw [List.filter_eq_nil_iff]
    intro u hu hcc
    unfold hasCrossConsumer at hcc
    rw [List.any_eq_true] at hcc
    rcases hcc with ⟨v, hv, hvb⟩
    have hutopo : u ∈ g.topoOrder := mem_topo_of_mem_nodesInStream g 1 0 u hu
    have hvtopo : v ∈ g.topoOrder := hcons u hutopo v hv
    rw [hall] at hvb
    simp only [Bool.not_eq_true'] at hvb
    rw [← Bool.not_eq_true] at hvb
    exact hvb (by simpa using hvtopo)
  have hntn_none : ∀ n : Nat, node_to_notification g 1 n = none := by
    intro n
    rw [node_to_notification_eq_none_iff, hnone]
    exact List.not_mem_nil n
  have hcmds : commands g 1 0 = g.topoOrder.map Command.compute := by
    unfold commands
    rw [hall]
    apply flatMap_singleton_map
    intro n hn
    unfold commandsForNode
    rw [hntn_none n]
    have hwaits : (g.producers n).filterMap (fun p =>
        if (nodesInStream g 1 0).contains p then none
        else (node_to_notification g 1 p).map (Command.wait (node_to_stream_map g 1 n)))
          = [] := by
      rw [List.filterMap_eq_nil_iff]
      intro p hp
      rw [hntn_none p]
      by_cases hin : (nodesInStream g 1 0).contains p
      · rw [if_pos hin]
      · rw [if_neg hin]
        rfl
    rw [hwaits]
    rfl
  refine ⟨hnone, hall, hcmds, ?_⟩
  intro v hv u hu
  have hutopo : u ∈ g.topoOrder := hprod v hv u hu
  have hlt := htopo v hv u hu
  refine ⟨g.topoOrder.indexOf u, g.topoOrder.indexOf v, hlt, ?_, ?_⟩
  · rw [hcmds, List.getElem?_map]
    have : g.topoOrder[g.topoOrder.indexOf u]? = some u := by
      rw [List.getElem?_eq_some_iff]
      exact ⟨List.indexOf_lt_length.mpr hutopo, List.getElem_indexOf _⟩
    rw [this]
    rfl
  · rw [hcmds, List.getElem?_map]
    have : g.topoOrder[g.topoOrder.indexOf v]? = some v := by
      rw [List.getElem?_eq_some_iff]
      exact ⟨List.indexOf_lt_length.mpr hv, List.getElem_indexOf _⟩
    rw [this]
    rfl

theorem C7_single_stream_degenerates_witness :
    (notifyingNodes gA 1 = []
      ∧ nodesInStream gA 1 0 = gA.topoOrder
      ∧ commands gA 1 0 = gA.topoOrder.map Command.compute)
    ∧ ((3 : Nat) ∈ gA.topoOrder ∧ (2 : Nat) ∈ gA.producers 3)
    ∧ (∃ ju jv : Nat, ju < jv
        ∧ (commands gA 1 0)[ju]? = some (Command.compute 2)
        ∧ (commands gA 1 0)[jv]? = some (Command.compute 3)) :=
  ⟨⟨(C7_single_stream_degenerates gA (by decide)).1,
    (C7_single_stream_degenerates gA (by decide)).2.1,
    (C7_single_stream_degenerates gA (by decide)).2.2.1⟩,
    ⟨by decide, by decide⟩,
    (C7_single_stream_degenerates gA (by decide)).2.2.2 3 (by decide) 2 (by decide)⟩

lemma mem_notifyingNodes_iff_spec (g : Graph) (K : Nat) (hwf : WF g) (hK : 0 < K)
    (u : Nat) :
    u ∈ notifyingNodes g K ↔ u ∈ g.topoOrder.filter (specCrossStreamSource g K) := by
  obtain ⟨hnd, hcons, -, -, -⟩ := hwf
  rw [List.mem_filter, mem_notifyingNodes]
  constructor
  · rintro ⟨i, hiK, hmem, hcc⟩
    have hutopo : u ∈ g.topoOrder := mem_topo_of_mem_nodesInStream g K i u hmem
    have hsu : nodeStream g K u = some i :=
      (mem_nodesInStream_iff_nodeStream g K hnd i u).mp hmem
    refine ⟨hutopo, ?_⟩
    unfold hasCrossConsumer at hcc
    rw [List.any_eq_true] at hcc
    rcases hcc with ⟨v, hv, hvb⟩
    unfold specCrossStreamSource
    rw [List.any_eq_true]
    refine ⟨v, hv, ?_⟩
    simp only [Bool.not_eq_true'] at hvb
    have hvout : v ∉ nodesInStream g K i := by
      intro hvin
      rw [← Bool.not_eq_true] at hvb
      exact hvb (by simpa using hvin)
    have : nodeStream g K v ≠ some i := by
      intro heq
      exact hvout ((mem_nodesInStream_iff_nodeStream g K hnd i v).mpr heq)
    rw [hsu]
    simpa using this
  · rintro ⟨hutopo, hspec⟩
    rcases List.getElem?_of_mem hutopo with ⟨d, hd⟩
    have hsu : nodeStream g K u = some (d % K) :=
      nodeStream_eq_some_of_getElem g K hnd u d hd
    have hmem : u ∈ nodesInStream g K (d % K) :=
      (mem_nodesInStream_iff_nodeStream g K hnd _ u).mpr hsu
    refine ⟨d % K, Nat.mod_lt d hK, hmem, ?_⟩
    unfold specCrossStreamSource at hspec
    rw [List.any_eq_true] at hspec
    rcases hspec with ⟨v, hv, hvb⟩
    unfold hasCrossConsumer
    rw [List.any_eq_true]
    refine ⟨v, hv, ?_⟩
    rw [hsu] at hvb
    have hvne : nodeStream g K v ≠ some (d % K) := by simpa using hvb
    have hvout : v ∉ nodesInStream g K (d % K) := by
      intro hvin
      exact hvne ((mem_nodesInStream_iff_nodeStream g K hnd _ v).mp hvin)
    simpa using hvout

/-- C5: pass 2 allocates exactly one notification per node that has at
least one out-edge into a different logic stream; the ids are dense
(`0 .. n-1`), equal to the positions in the pass-2 visit order (nodes in
stream order within each stream, streams taken in order). -/
theorem C5_notification_count_dense_ordered (g : Graph) (K : Nat) (hwf : WF g)
    (hK : 0 < K) :
    num_notifications g K = (g.topoOrder.filter (specCrossStreamSource g K)).length
    ∧ (∀ u id : Nat,
        node_to_notification g K u = some id ↔ (notifyingNodes g K)[id]? = some u)
    ∧ (∀ id : Nat, id < num_notifications g K →
        ∃ u, node_to_notification g K u = some id) := by
  have hnd : g.topoOrder.Nodup := hwf.1
  refine ⟨?_, ?_, ?_⟩
  · have hperm : (notifyingNodes g K).Perm (g.topoOrder.filter (specCrossStreamSource g K)) := by
      rw [List.perm_ext_iff_of_nodup (notifyingNodes_nodup g K hnd)
        (List.Nodup.sublist (List.filter_sublist _) hnd)]
      intro u
      exact mem_notifyingNodes_iff_spec g K hwf hK u
    unfold num_notifications
    exact hperm.length_eq
  · intro u id
    exact node_to_notification_eq_some_iff g K hnd u id
  · intro id hid
    refine ⟨(notifyingNodes g K)[id], ?_⟩
    rw [node_to_notification_eq_some_iff g K hnd]
    exact List.getElem?_eq_some_iff.mpr ⟨hid, rfl⟩

theorem C5_notification_count_dense_ordered_witness :
    (num_notifications gA 2 = (gA.topoOrder.filter (specCrossStreamSource gA 2)).length)
    ∧ (node_to_notification gA 2 2 = some 1 ↔ (notifyingNodes gA 2)[1]? = some 2)
    ∧ ((1 : Nat) < num_notifications gA 2)
    ∧ (∃ u, node_to_notification gA 2 u = some 1) :=
  ⟨(C5_notification_count_dense_ordered gA 2 (by decide) (by decide)).1,
    (C5_notification_count_dense_ordered gA 2 (by decide) (by decide)).2.1 2 1,
    by decide,
    (C5_notification_count_dense_ordered gA 2 (by decide) (by decide)).2.2 1 (by decide)⟩

/-- C1: for every graph edge `u → v` whose endpoints are assigned to
different logic streams, the command list of `v`'s logic stream contains
a wait on `u`'s notification at an index strictly preceding `v`'s compute
command; when the endpoints share a logic stream, no wait on `u`'s
notification appears anywhere in that stream's command list. -/
theorem C1_dependency_closure (g : Graph) (K : Nat) (hwf : WF g) (hK : 0 < K)
    (u v su sv : Nat) (hu : u ∈ g.topoOrder) (hv : v ∈ g.consumers u)
    (hsu : nodeStream g K u = some su) (hsv : nodeStream g K v = some sv) :
    (su ≠ sv → ∃ id : Nat, node_to_notification g K u = some id
        ∧ ∃ jw jc : Nat, jw < jc
          ∧ (commands g K sv)[jw]? = some (Command.wait (node_to_stream_map g K v) id)
          ∧ (commands g K sv)[jc]? = some (Command.compute v))
    ∧ (su = sv → ∀ (s : Option Stream) (id : Nat),
        node_to_notification g K u = some id → Command.wait s id ∉ commands g K sv) := by
  have hnd := hwf.1
  have hcons := hwf.2.1
  have hdual := hwf.2.2.2.1
  have hvtopo : v ∈ g.topoOrder := hcons u hu v hv
  have hvmem : v ∈ nodesInStream g K sv :=
    (mem_nodesInStream_iff_nodeStream g K hnd sv v).mpr hsv
  have humem : u ∈ nodesInStream g K su :=
    (mem_nodesInStream_iff_nodeStream g K hnd su u).mpr hsu
  have huprod : u ∈ g.producers v := (hdual u hu v hvtopo).mp hv
  constructor
  · intro hne
    have huout : u ∉ nodesInStream g K sv := by
      intro h
      have h' : nodeStream g K u = some sv :=
        (mem_nodesInStream_iff_nodeStream g K hnd sv u).mp h
      rw [hsu] at h'
      exact hne (Option.some.inj h')
    have hnotif : u ∈ notifyingNodes g K :=
      cross_producer_notifying g K hwf hK sv v u hvmem huprod huout
    rcases List.getElem?_of_mem hnotif with ⟨id, hidget⟩
    have hntnu : node_to_notification g K u = some id :=
      (node_to_notification_eq_some_iff g K hnd u id).mpr hidget
    refine ⟨id, hntnu, ?_⟩
    have hwmem : Command.wait (node_to_stream_map g K v) id ∈
        (g.producers v).filterMap (fun p =>
          if (nodesInStream g K sv).contains p then none
          else (node_to_notification g K p).map (Command.wait (node_to_stream_map g K v))) := by
      refine List.mem_filterMap.mpr ⟨u, huprod, ?_⟩
      rw [if_neg (by simpa using huout), hntnu]
      rfl
    have hpair : [Command.wait (node_to_stream_map g K v) id, Command.compute v].Sublist
        (commandsForNode g K sv v) := by
      unfold commandsForNode
      refine List.Sublist.trans ?_ (List.sublist_append_left _ _)
      have happ := List.Sublist.append (List.singleton_sublist.mpr hwmem)
        (List.Sublist.refl [Command.compute v])
      simpa using happ
    rcases List.append_of_mem hvmem with ⟨l1, l2, hsplit⟩
    have hsub2 : (commandsForNode g K sv v).Sublist (commands g K sv) := by
      unfold commands
      rw [hsplit, List.flatMap_append, List.flatMap_cons]
      exact List.Sublist.trans (List.sublist_append_left _ _) (List.sublist_append_right _ _)
    rcases pair_sublist_getElem _ _ _ (hpair.trans hsub2) with ⟨jw, jc, hlt, hw, hc⟩
    exact ⟨jw, jc, hlt, hw, hc⟩
  · intro heq s id hntnu hwmem
    rcases List.mem_flatMap.mp hwmem with ⟨n, hnmem, hcn⟩
    unfold commandsForNode at hcn
    rcases List.mem_append.mp hcn with hcw2 | hcn'
    · rcases List.mem_append.mp hcw2 with hcw | hcc
      · rcases List.mem_filterMap.mp hcw with ⟨p, hpprod, hp⟩
        by_cases hin : (nodesInStream g K sv).contains p
        · rw [if_pos hin] at hp
          exact Option.noConfusion hp
        · rw [if_neg hin] at hp
          rcases Option.map_eq_some'.mp hp with ⟨id', hntnp, heqc⟩
          have hids : id' = id := by
            have hcongr := congrArg notificationIndexOf heqc
            simpa [notificationIndexOf] using hcongr
          rw [hids] at hntnp
          have hpu : p = u := by
            have h1 := (node_to_notification_eq_some_iff g K hnd p id).mp hntnp
            have h2 := (node_to_notification_eq_some_iff g K hnd u id).mp hntnu
            rw [h1] at h2
            exact Option.some.inj h2
          rw [hpu] at hin
          have humem' : u ∈ nodesInStream g K sv := heq ▸ humem
          exact hin (by simpa using humem')
      · exact absurd hcc (by simp)
    · rcases hntn : node_to_notification g K n with _ | id2
      · rw [hntn] at hcn'
        exact absurd hcn' (by simp)
      · rw [hntn] at hcn'
        exact absurd hcn' (by simp)

theorem C1_dependency_closure_witness :
    ((0 : Nat) ≠ 1)
    ∧ (∃ id : Nat, node_to_notification gA 2 0 = some id
        ∧ ∃ jw jc : Nat, jw < jc
          ∧ (commands gA 2 1)[jw]? = some (Command.wait (node_to_stream_map gA 2 1) id)
          ∧ (commands gA 2 1)[jc]? = some (Command.compute 1)) :=
  ⟨by decide,
    (C1_dependency_closure gA 2 (by decide) (by decide) 0 1 0 1 (by decide) (by decide)
      (by decide) (by decide)).1 (by decide)⟩

lemma countP_commandsForNode (g : Graph) (K : Nat) (hnd : g.topoOrder.Nodup)
    (id u : Nat) (hA : (notifyingNodes g K)[id]? = some u) (i n : Nat) :
    (commandsForNode g K i n).countP (isNotifyFor id) = if n = u then 1 else 0 := by
  have hntnu : node_to_notification g K u = some id :=
    (node_to_notification_eq_some_iff g K hnd u id).mpr hA
  unfold commandsForNode
  rw [List.countP_append, List.countP_append]
  have hW : ((g.producers n).filterMap (fun p =>
      if (nodesInStream g K i).contains p then none
      else (node_to_notification g K p).map
        (Command.wait (node_to_stream_map g K n)))).countP (isNotifyFor id) = 0 := by
    rw [List.countP_eq_zero]
    intro c hc
    rcases List.mem_filterMap.mp hc with ⟨p, -, hp⟩
    by_cases hin : (nodesInStream g K i).contains p
    · rw [if_pos hin] at hp
      exact absurd hp (by simp)
    · rw [if_neg hin] at hp
      rcases Option.map_eq_some'.mp hp with ⟨id', -, rfl⟩
      simp [isNotifyFor]
  have hC : ([Command.compute n]).countP (isNotifyFor id) = 0 := by
    simp [isNotifyFor]
  rw [hW, hC]
  rcases hntn : node_to_notification g K n with _ | id2
  · have hne : n ≠ u := by
      intro heq
      rw [heq, hntnu] at hntn
      exact Option.noConfusion hntn
    simp [if_neg hne]
  · by_cases hid2 : id2 = id
    · have hnu : n = u := by
        rw [hid2] at hntn
        have h1 := (node_to_notification_eq_some_iff g K hnd n id).mp hntn
        rw [hA] at h1
        exact Option.some.inj h1.symm
      simp [isNotifyFor, if_pos hnu, hid2]
    · have hne : n ≠ u := by
        intro heq
        rw [heq, hntnu] at hntn
        exact hid2 (Option.some.inj hntn).symm
      simp [isNotifyFor, if_neg hne, hid2]

lemma countP_commands_stream (g : Graph) (K : Nat) (hnd : g.topoOrder.Nodup)
    (id u : Nat) (hA : (notifyingNodes g K)[id]? = some u) (i : Nat) :
    (commands g K i).countP (isNotifyFor id)
      = if u ∈ nodesInStream g K i then 1 else 0 := by
  unfold commands
  rw [List.countP_flatMap]
  have hmap : (nodesInStream g K i).map (List.countP (isNotifyFor id) ∘ commandsForNode g K i)
      = (nodesInStream g K i).map (fun n => if n = u then 1 else 0) := by
    apply List.map_congr_left
    intro n _
    simp only [Function.comp]
    exact countP_commandsForNode g K hnd id u hA i n
  rw [hmap]
  by_cases hmem : u ∈ nodesInStream g K i
  · rw [if_pos hmem]
    exact sum_indicator_one u (nodesInStream g K i) (nodesInStream_nodup g K i hnd) hmem
  · rw [if_neg hmem]
    exact sum_indicator_zero u (nodesInStream g K i) hmem

/-- C3: every notification id of the plan has exactly one notify command
across all logic streams, and that notify command sits at the command
index immediately following the compute command of the node that
produced the notification. -/
theorem C3_notify_unique_and_adjacent (g : Graph) (K : Nat) (hwf : WF g) (_hK : 0 < K)
    (id : Nat) (hid : id < num_notifications g K) :
    ((List.range K).map (fun i => (commands g K i).countP (isNotifyFor id))).sum = 1
    ∧ (∃ u i j : Nat, (notifyingNodes g K)[id]? = some u
        ∧ nodeStream g K u = some i
        ∧ (commands g K i)[j]? = some (Command.compute u)
        ∧ ∃ s, (commands g K i)[j + 1]? = some (Command.notify s id)) := by
  have hnd := hwf.1
  unfold num_notifications at hid
  obtain ⟨u, hA⟩ : ∃ u, (notifyingNodes g K)[id]? = some u :=
    ⟨(notifyingNodes g K)[id], List.getElem?_eq_some_iff.mpr ⟨hid, rfl⟩⟩
  have humemA : u ∈ notifyingNodes g K := List.getElem?_mem hA
  rcases (mem_notifyingNodes g K u).mp humemA with ⟨su, hsuK, humem, -⟩
  have hsu : nodeStream g K u = some su :=
    (mem_nodesInStream_iff_nodeStream g K hnd su u).mp humem
  have hntnu : node_to_notification g K u = some id :=
    (node_to_notification_eq_some_iff g K hnd u id).mpr hA
  constructor
  · have hmap : (List.range K).map (fun i => (commands g K i).countP (isNotifyFor id))
        = (List.range K).map (fun i => if i = su then 1 else 0) := by
      apply List.map_congr_left
      intro i _
      rw [countP_commands_stream g K hnd id u hA i]
      by_cases hisu : i = su
      · rw [if_pos hisu, if_pos (hisu ▸ humem)]
      · rw [if_neg hisu, if_neg]
        intro hmem
        exact hisu (nodesInStream_disjoint g K hnd i su u hmem humem)
    rw [hmap]
    exact sum_indicator_one su (List.range K) (List.nodup_range K) (List.mem_range.mpr hsuK)
  · rcases List.append_of_mem humem with ⟨l1, l2, hsplit⟩
    have hcfnu : commandsForNode g K su u
        = ((g.producers u).filterMap (fun p =>
            if (nodesInStream g K su).contains p then none
            else (node_to_notification g K p).map (Command.wait (node_to_stream_map g K u)))
          ++ [Command.compute u])
          ++ [Command.notify
              ((device_streams g K su).find? (fun s => s.provider == g.ep u)) id] := by
      unfold commandsForNode
      rw [hntnu]
    have hcmds : commands g K su
        = (l1.flatMap (commandsForNode g K su)
            ++ (g.producers u).filterMap (fun p =>
              if (nodesInStream g K su).contains p then none
              else (node_to_notification g K p).map (Command.wait (node_to_stream_map g K u))))
          ++ Command.compute u
            :: Command.notify
              ((device_streams g K su).find? (fun s => s.provider == g.ep u)) id
            :: l2.flatMap (commandsForNode g K su) := by
      unfold commands
      conv_lhs => rw [hsplit, List.flatMap_append, List.flatMap_cons, hcfnu]
      simp only [List.append_assoc, List.cons_append, List.singleton_append, List.nil_append]
    have hpairidx := getElem_append_cons_pair
      (l1.flatMap (commandsForNode g K su)
        ++ (g.producers u).filterMap (fun p =>
          if (nodesInStream g K su).contains p then none
          else (node_to_notification g K p).map (Command.wait (node_to_stream_map g K u))))
      (l2.flatMap (commandsForNode g K su))
      (Command.compute u)
      (Command.notify ((device_streams g K su).find? (fun s => s.provider == g.ep u)) id)
    rw [← hcmds] at hpairidx
    exact ⟨u, su, _, hA, hsu, hpairidx.1, ⟨_, hpairidx.2⟩⟩

theorem C3_notify_unique_and_adjacent_witness :
    ((0 : Nat) < num_notifications gA 2)
    ∧ (((List.range 2).map (fun i => (commands gA 2 i).countP (isNotifyFor 0))).sum = 1
        ∧ (∃ u i j : Nat, (notifyingNodes gA 2)[0]? = some u
            ∧ nodeStream gA 2 u = some i
            ∧ (commands gA 2 i)[j]? = some (Command.compute u)
            ∧ ∃ s, (commands gA 2 i)[j + 1]? = some (Command.notify s 0))) :=
  ⟨by decide, C3_notify_unique_and_adjacent gA 2 (by decide) (by decide) 0 (by decide)⟩

end OnnxRt
